import Mathlib

/-!
Verification of the OAuth 1.0 request-signing core of `oauth1-request-rs`.

The definitions below are a shallow embedding of:
- `src/src/signature_method/mod.rs` (the `SignatureMethod`/`Sign` traits, `signing_key`),
- `src/src/signature_method/hmac_sha1.rs` (the `HMAC-SHA1` signature method),
- `src/oauth1-request-derive/src/method_body.rs` (`MethodBody::to_tokens`).

Byte streams fed to the MAC are modelled as `String`s (every input in the source is
UTF-8 text: `method.as_bytes()`, `b"&"`, `key.as_bytes()`, `b"%3D"`, `b"%26"` and
`fmt::Write` renderings), with `strBytes` giving the underlying byte sequence.
-/

set_option maxRecDepth 100000

namespace OAuth1

/-- UTF-8 encoding of a single character (list of byte values). -/
def charUtf8 (c : Char) : List Nat :=
  if c.toNat < 128 then [c.toNat]
  else if c.toNat < 2048 then [192 + c.toNat / 64, 128 + c.toNat % 64]
  else if c.toNat < 65536 then
    [224 + c.toNat / 4096, 128 + c.toNat / 64 % 64, 128 + c.toNat % 64]
  else
    [240 + c.toNat / 262144, 128 + c.toNat / 4096 % 64, 128 + c.toNat / 64 % 64,
      128 + c.toNat % 64]

/-- The byte sequence of a string (UTF-8). -/
def strBytes (s : String) : List Nat :=
  s.data.flatMap charUtf8

/-- RFC 3986 unreserved byte: `A-Z a-z 0-9 - . _ ~`. -/
def isUnreservedByte (b : Nat) : Bool :=
  (65 ≤ b && b ≤ 90) || (97 ≤ b && b ≤ 122) || (48 ≤ b && b ≤ 57) ||
    b == 45 || b == 46 || b == 95 || b == 126

/-- Upper-case hexadecimal digit for `n < 16`. -/
def hexUpper (n : Nat) : Char :=
  if n < 10 then Char.ofNat (48 + n) else Char.ofNat (55 + n)

/-- Percent-encode a byte sequence: unreserved bytes kept, all else `%XX` upper-hex. -/
def percentEncodeBytes : List Nat → String
  | [] => ""
  | b :: rest =>
    (if isUnreservedByte b then String.singleton (Char.ofNat b)
     else "%" ++ String.singleton (hexUpper (b / 16)) ++ String.singleton (hexUpper (b % 16)))
      ++ percentEncodeBytes rest

/-- Modelled from the spec: the percent-encoding primitive (spec §1/§6), an external
collaborator of the core (`util::PercentEncode` is not under `src/`): RFC 3986
encoding with unreserved set `A-Za-z0-9-._~`, all other bytes as `%XX` upper-hex. -/
def percentEncode (s : String) : String :=
  percentEncodeBytes (strBytes s)

/-- Embeds `signing_key` (src/src/signature_method/mod.rs, lines 216-223): writes
`"{}&"` with the consumer secret, then the token secret if present. The `impl Display`
arguments are modelled by the strings they render to. -/
def signing_key (cs : String) (ts : Option String) : String :=
  cs ++ "&" ++ (match ts with | some t => t | none => "")

/-- Modelled from the spec: the `Signer` layer (`lib.rs`, not under `src/`) percent-encodes
each secret independently before handing it to the `Sign` implementation (spec §4.3:
"Signing key = percentEncode(consumerSecret) & percentEncode(tokenSecret-or-empty)"). -/
def derivedSigningKey (cs : String) (ts : Option String) : String :=
  signing_key (percentEncode cs) (ts.map percentEncode)

/-- State of `HmacSha1Sign` (src/src/signature_method/hmac_sha1.rs): the `Hmac<Sha1>`
accumulator is modelled by its key and the bytes input so far. -/
structure HmacSha1Sign where
  key : String
  fed : String
deriving DecidableEq

/-- Embeds `self.mac.input(..)`: appends bytes to the MAC's input stream. -/
def HmacSha1Sign.input (s : HmacSha1Sign) (bytes : String) : HmacSha1Sign :=
  ⟨s.key, s.fed ++ bytes⟩

/-- Embeds `HmacSha1Sign::new` (hmac_sha1.rs lines 47-56): the MAC is keyed with
`signing_key(consumer_secret, token_secret)` and starts with no input. -/
def HmacSha1Sign.new (cs : String) (ts : Option String) : HmacSha1Sign :=
  ⟨signing_key cs ts, ""⟩

/-- Embeds `HmacSha1Sign::request_method` (hmac_sha1.rs lines 62-65):
`mac.input(method.as_bytes()); mac.input(b"&")`. -/
def HmacSha1Sign.request_method (s : HmacSha1Sign) (m : String) : HmacSha1Sign :=
  (s.input m).input "&"

/-- Embeds `HmacSha1Sign::uri` (hmac_sha1.rs lines 67-69):
`write!(MacWrite(&mut self.mac), "{}&", uri).unwrap()`. -/
def HmacSha1Sign.uri (s : HmacSha1Sign) (u : String) : HmacSha1Sign :=
  s.input (u ++ "&")

/-- Embeds `HmacSha1Sign::parameter` (hmac_sha1.rs lines 71-75):
`mac.input(key.as_bytes()); mac.input(b"%3D"); write!(MacWrite(&mut self.mac), "{}", value)`. -/
def HmacSha1Sign.parameter (s : HmacSha1Sign) (k v : String) : HmacSha1Sign :=
  ((s.input k).input "%3D").input v

/-- Embeds `HmacSha1Sign::delimit` (hmac_sha1.rs lines 77-79): `mac.input(b"%26")`. -/
def HmacSha1Sign.delimit (s : HmacSha1Sign) : HmacSha1Sign :=
  s.input "%26"

/-- Embeds `MacWrite::write_str` (hmac_sha1.rs lines 94-99): feeds the string's bytes
into the MAC and returns `Ok(())`; the `fmt::Result` is modelled by `Except Unit`. -/
def MacWrite.write_str (s : HmacSha1Sign) (t : String) : Except Unit HmacSha1Sign :=
  Except.ok (s.input t)

/-- The fallible body of `HmacSha1Sign::uri` before its `.unwrap()`. -/
def HmacSha1Sign.uriE (s : HmacSha1Sign) (u : String) : Except Unit HmacSha1Sign :=
  MacWrite.write_str s (u ++ "&")

/-- The fallible body of `HmacSha1Sign::parameter` before its `.unwrap()`. -/
def HmacSha1Sign.parameterE (s : HmacSha1Sign) (k v : String) : Except Unit HmacSha1Sign :=
  MacWrite.write_str ((s.input k).input "%3D") v

/-- Models `Hmac::<Sha1>::new_varkey` from the external `hmac` crate: HMAC accepts keys
of any length (long keys are hashed, short ones zero-padded inside the MAC), so
key initialization succeeds for every key. -/
def hmacNewVarkey (key : String) : Except String HmacSha1Sign :=
  Except.ok ⟨key, ""⟩

/-- The fallible body of `HmacSha1Sign::new` before its `.unwrap()`: the only fallible
step is the MAC key initialization. -/
def HmacSha1Sign.newE (cs : String) (ts : Option String) : Except String HmacSha1Sign :=
  hmacNewVarkey (signing_key cs ts)

/-- ASCII upper-casing, the `UPPER` operation named by the spec (spec §4.2). -/
def upperAscii (s : String) : String :=
  ⟨s.data.map fun c => if 97 ≤ c.toNat && c.toNat ≤ 122 then Char.ofNat (c.toNat - 32) else c⟩

/-- C2 counterexample: `request_method` does not upper-case the method. Feeding the
lower-case method `"get"` to a fresh signer feeds the bytes `"get&"`, not
`UPPER("get") ++ "&" = "GET&"`, so the claim as stated is false. -/
theorem C2_counterexample :
    ((HmacSha1Sign.new "cs" none).request_method "get").fed = "get&" ∧
      upperAscii "get" = "GET" ∧
      ¬ ((HmacSha1Sign.new "cs" none).request_method "get").fed = upperAscii "get" ++ "&" := by
  refine ⟨rfl, by decide, by decide⟩

/-- C2 (amended): `request_method(m)` feeds exactly the bytes of `m` as given, followed
by `"&"`, into the accumulator; it performs no upper-casing (the caller is responsible
for passing an already upper-cased method). The key is unchanged. -/
theorem C2_request_method_feeds_verbatim (s : HmacSha1Sign) (m : String) :
    (s.request_method m).fed = s.fed ++ m ++ "&" ∧ (s.request_method m).key = s.key :=
  ⟨rfl, rfl⟩

/-- C3 counterexample: `parameter` does not percent-encode its components. Feeding the
key `"a b"` (space is not unreserved) and value `"v"` feeds the bytes `"a b%3Dv"`,
whereas the claim's `percentEncode("a b") ++ "%3D" ++ percentEncode("v")` is
`"a%20b%3Dv"`; so the claim as stated is false. -/
theorem C3_counterexample :
    ((HmacSha1Sign.new "cs" none).parameter "a b" "v").fed = "a b%3Dv" ∧
      percentEncode "a b" ++ "%3D" ++ percentEncode "v" = "a%20b%3Dv" ∧
      ¬ ((HmacSha1Sign.new "cs" none).parameter "a b" "v").fed =
          percentEncode "a b" ++ "%3D" ++ percentEncode "v" := by
  refine ⟨rfl, by decide, by decide⟩

/-- C3 (amended): `parameter(k, v)` feeds exactly the bytes of `k` as given, then the
literal bytes `"%3D"`, then the `Display` rendering of `v` as given; percent-encoding
of both components is the caller's responsibility, not the builder's. An empty value
is legal and still produces the `"%3D"` (take `v = ""`). The key is unchanged. -/
theorem C3_parameter_feeds_verbatim (s : HmacSha1Sign) (k v : String) :
    (s.parameter k v).fed = s.fed ++ k ++ "%3D" ++ v ∧ (s.parameter k v).key = s.key :=
  ⟨rfl, rfl⟩

/-! SHA-1 (FIPS 180), HMAC (RFC 2104) and standard base64: models of the external
`sha1`, `hmac` and `base64` crates consumed by `hmac_sha1.rs`. Words are `Nat`s
reduced mod `2^32`. Validated below against published test vectors. -/

/-- Truncation to a 32-bit word. -/
def w32 (x : Nat) : Nat := x % 4294967296

/-- Left-rotation of a 32-bit word by `n` bits. -/
def rotl32 (n x : Nat) : Nat := w32 ((x <<< n) ||| (x >>> (32 - n)))

/-- The SHA-1 round function for round `t`. -/
def sha1F (t b c d : Nat) : Nat :=
  if t < 20 then (b &&& c) ||| ((b ^^^ 4294967295) &&& d)
  else if t < 40 then b ^^^ c ^^^ d
  else if t < 60 then (b &&& c) ||| (b &&& d) ||| (c &&& d)
  else b ^^^ c ^^^ d

/-- The SHA-1 round constant for round `t`. -/
def sha1K (t : Nat) : Nat :=
  if t < 20 then 1518500249
  else if t < 40 then 1859775393
  else if t < 60 then 2400959708
  else 3395469782

/-- Extends the 16-word message block by `n` further schedule words. -/
def sha1Extend : Nat → List Nat → List Nat
  | 0, ws => ws
  | n + 1, ws =>
    sha1Extend n (ws ++ [rotl32 1 (ws.getD (ws.length - 3) 0 ^^^ ws.getD (ws.length - 8) 0 ^^^
      ws.getD (ws.length - 14) 0 ^^^ ws.getD (ws.length - 16) 0)])

/-- The 80-word SHA-1 message schedule of a 16-word block. -/
def sha1Schedule (ws : List Nat) : List Nat := sha1Extend 64 ws

/-- The five 32-bit working variables of SHA-1. -/
structure Sha1State where
  a : Nat
  b : Nat
  c : Nat
  d : Nat
  e : Nat
deriving DecidableEq

/-- One SHA-1 round: `tw` is the pair (round index, schedule word). -/
def sha1Round (st : Sha1State) (tw : Nat × Nat) : Sha1State :=
  ⟨w32 (rotl32 5 st.a + sha1F tw.1 st.b st.c st.d + st.e + sha1K tw.1 + tw.2),
    st.a, rotl32 30 st.b, st.c, st.d⟩

/-- SHA-1 compression of one 16-word block into the chaining state. -/
def sha1Compress (h : Sha1State) (block : List Nat) : Sha1State :=
  let st := ((List.range 80).zip (sha1Schedule block)).foldl sha1Round h
  ⟨w32 (h.a + st.a), w32 (h.b + st.b), w32 (h.c + st.c), w32 (h.d + st.d), w32 (h.e + st.e)⟩

/-- Big-endian 4-byte grouping of a byte list into 32-bit words. -/
def bytesToWords : List Nat → List Nat
  | b0 :: b1 :: b2 :: b3 :: rest => (((b0 * 256 + b1) * 256 + b2) * 256 + b3) :: bytesToWords rest
  | _ => []

/-- SHA-1 padding: `0x80`, zeros to 56 mod 64, then the bit length as 8 big-endian bytes. -/
def sha1Pad (msg : List Nat) : List Nat :=
  let l := msg.length
  msg ++ 128 :: List.replicate ((119 - l % 64) % 64) 0
    ++ (List.range 8).map fun i => ((8 * l) >>> (8 * (7 - i))) % 256

/-- Splits a byte list into 64-byte chunks (fuel-driven; fuel `= length` suffices). -/
def chunks64 : Nat → List Nat → List (List Nat)
  | 0, _ => []
  | _, [] => []
  | fuel + 1, l => l.take 64 :: chunks64 fuel (l.drop 64)

/-- The SHA-1 initial chaining value. -/
def sha1Init : Sha1State := ⟨1732584193, 4023233417, 2562383102, 271733878, 3285377520⟩

/-- Big-endian serialization of one 32-bit word into 4 bytes. -/
def word32Bytes (h : Nat) : List Nat :=
  [h / 16777216 % 256, h / 65536 % 256, h / 256 % 256, h % 256]

/-- Serialization of the final SHA-1 state into the 20-byte digest. -/
def sha1Digest (st : Sha1State) : List Nat :=
  word32Bytes st.a ++ word32Bytes st.b ++ word32Bytes st.c ++ word32Bytes st.d ++ word32Bytes st.e

/-- SHA-1 of a byte sequence. -/
def sha1 (msg : List Nat) : List Nat :=
  let padded := sha1Pad msg
  sha1Digest ((chunks64 padded.length padded).foldl
    (fun h blk => sha1Compress h (bytesToWords blk)) sha1Init)

/-- HMAC-SHA1 (RFC 2104): keys longer than the 64-byte block are hashed first,
then zero-padded; inner pad `0x36`, outer pad `0x5c`. -/
def hmacSha1 (key msg : List Nat) : List Nat :=
  let k0 := if 64 < key.length then sha1 key else key
  let kp := k0 ++ List.replicate (64 - k0.length) 0
  sha1 ((kp.map fun b => b ^^^ 92) ++ sha1 ((kp.map fun b => b ^^^ 54) ++ msg))

/-- SHA-1 validation: FIPS 180 test vector for `"abc"`. -/
theorem sha1_vector_abc :
    sha1 (strBytes "abc") =
      [169, 153, 62, 54, 71, 6, 129, 106, 186, 62, 37, 113, 120, 80, 194, 108,
        156, 208, 216, 157] := by decide

/-- HMAC-SHA1 validation: RFC 2202 test vector (key `"key"` would not be standard;
this is the well-known quick-brown-fox vector `de7c9b85...`). -/
theorem hmacSha1_vector_fox :
    hmacSha1 (strBytes "key") (strBytes "The quick brown fox jumps over the lazy dog") =
      [222, 124, 155, 133, 184, 183, 138, 166, 188, 138, 122, 54, 247, 10, 144, 112,
        28, 157, 180, 217] := by decide

/-- Embeds `HmacSha1Sign::finish` (hmac_sha1.rs lines 81-85): `self.mac.result().code()`,
the HMAC-SHA1 digest of the key and all bytes input so far. -/
def HmacSha1Sign.finish (s : HmacSha1Sign) : List Nat :=
  hmacSha1 (strBytes s.key) (strBytes s.fed)

/-- Embeds `impl Display for HmacSha1Signature` (hmac_sha1.rs lines 88-92):
`PercentEncode(Base64Display::standard(&self.signature))` — base64 with the standard
alphabet (and `=` padding), then percent-encoded. -/
def base64Chars : List Char :=
  "ABCDEFGHIJKLMNOPQRSTUVWXYZabcdefghijklmnopqrstuvwxyz0123456789+/".data

/-- A character of the standard base64 alphabet. -/
def b64c (n : Nat) : Char := base64Chars.getD n 'A'

/-- Standard-alphabet base64 with `=` padding (models the `base64` crate's
`Base64Display::standard`). -/
def base64Encode : List Nat → String
  | [] => ""
  | [b0] => ⟨[b64c (b0 / 4), b64c (b0 % 4 * 16)]⟩ ++ "=="
  | [b0, b1] => ⟨[b64c (b0 / 4), b64c (b0 % 4 * 16 + b1 / 16), b64c (b1 % 16 * 4)]⟩ ++ "="
  | b0 :: b1 :: b2 :: rest =>
    ⟨[b64c (b0 / 4), b64c (b0 % 4 * 16 + b1 / 16), b64c (b1 % 16 * 4 + b2 / 64), b64c (b2 % 64)]⟩
      ++ base64Encode rest

/-- Base64 validation: RFC 4648 test vectors. -/
theorem base64_vectors :
    base64Encode (strBytes "foob") = "Zm9vYg==" ∧
      base64Encode (strBytes "fooba") = "Zm9vYmE=" ∧
      base64Encode (strBytes "foobar") = "Zm9vYmFy" := by decide

/-- Rendering of an `HmacSha1Signature` (hmac_sha1.rs lines 88-92). -/
def HmacSha1Signature.render (digest : List Nat) : String :=
  percentEncode (base64Encode digest)

/-- End-to-end validation: the OAuth 1.0 worked example (photos.example.net):
base64 of the HMAC-SHA1 over the canonical base string is `tR3+Ty81lMeYAr/Fid0kMTYa/WM=`. -/
theorem hmacSha1_oauth_worked_example :
    base64Encode (hmacSha1 (strBytes "kd94hf93k423kf44&pfkkdhi9sl3r4s00")
      (strBytes ("GET&http%3A%2F%2Fphotos.example.net%2Fphotos&file%3Dvacation.jpg%26oauth_consumer_key%3Ddpf43f3p2l4k3l03%26oauth_nonce%3Dkllo9940pd9333jh%26oauth_signature_method%3DHMAC-SHA1%26oauth_timestamp%3D1191242096%26oauth_token%3Dnnch734d00sl2jdk%26oauth_version%3D1.0%26size%3Doriginal"))) =
      "tR3+Ty81lMeYAr/Fid0kMTYa/WM=" := by decide

lemma charOfNat_toNat (b : Nat) (h : b < 55296) : (Char.ofNat b).toNat = b := by
  have hv : Nat.isValidChar b := Or.inl h
  simp only [Char.ofNat, hv, dif_pos, Char.ofNatAux, Char.toNat]
  rfl

lemma strBytes_lt (s : String) : ∀ b ∈ strBytes s, b < 256 := by
  intro b hb
  simp only [strBytes, List.mem_flatMap] at hb
  obtain ⟨c, _, hb⟩ := hb
  have hc : c.toNat < 1114112 := by
    have hvalid := c.valid
    have heq : c.toNat = c.val.toNat := rfl
    rcases hvalid with h1 | h1 <;> omega
  unfold charUtf8 at hb
  split_ifs at hb <;> simp only [List.mem_cons, List.mem_singleton, List.not_mem_nil] at hb <;>
    rcases hb with hb | hb | hb | hb | hb <;> first | omega | exact absurd hb (by simp)

lemma hexUpper_unreserved (n : Nat) (h : n < 16) :
    isUnreservedByte (hexUpper n).toNat = true := by
  unfold hexUpper
  split_ifs with h10
  · rw [charOfNat_toNat (48 + n) (by omega)]
    simp only [isUnreservedByte, Bool.or_eq_true, Bool.and_eq_true, decide_eq_true_eq,
      Nat.beq_eq_true_eq]
    omega
  · rw [charOfNat_toNat (55 + n) (by omega)]
    simp only [isUnreservedByte, Bool.or_eq_true, Bool.and_eq_true, decide_eq_true_eq,
      Nat.beq_eq_true_eq]
    omega

lemma percentEncodeBytes_chars :
    ∀ bytes : List Nat, (∀ b ∈ bytes, b < 256) →
      ∀ c ∈ (percentEncodeBytes bytes).data, isUnreservedByte c.toNat = true ∨ c = '%' := by
  intro bytes
  induction bytes with
  | nil =>
      intro _ c hc
      exact absurd hc (by simp [percentEncodeBytes])
  | cons b rest ih =>
      intro hlt c hc
      have hb : b < 256 := hlt b (by simp)
      rw [percentEncodeBytes, String.data_append] at hc
      rcases List.mem_append.mp hc with h1 | h2
      · split_ifs at h1 with hu
        · have hdata : (String.singleton (Char.ofNat b)).data = [Char.ofNat b] := rfl
          rw [hdata, List.mem_singleton] at h1
          subst h1
          left
          rwa [charOfNat_toNat b (by omega)]
        · have hdata : ("%" ++ String.singleton (hexUpper (b / 16)) ++
              String.singleton (hexUpper (b % 16))).data =
              ['%', hexUpper (b / 16), hexUpper (b % 16)] := rfl
          rw [hdata] at h1
          simp only [List.mem_cons, List.mem_singleton, List.not_mem_nil, or_false] at h1
          rcases h1 with h1 | h1 | h1
          · right; exact h1
          · subst h1; left; exact hexUpper_unreserved (b / 16) (by omega)
          · subst h1; left; exact hexUpper_unreserved (b % 16) (by omega)
      · exact ih (fun x hx => hlt x (by simp [hx])) c h2

lemma sha1Digest_length (st : Sha1State) : (sha1Digest st).length = 20 := rfl

lemma sha1_length (msg : List Nat) : (sha1 msg).length = 20 := by
  unfold sha1
  exact sha1Digest_length _

lemma hmacSha1_length (key msg : List Nat) : (hmacSha1 key msg).length = 20 := by
  unfold hmacSha1
  exact sha1_length _

/-- C5: `finish()` is the HMAC-SHA1 digest, keyed by the signing key, of all bytes fed
so far; the digest is 20 bytes; rendering the signature percent-encodes the
standard-alphabet base64 text of the digest, and the rendered text contains no raw
`+`, `/` or `=` (they are escaped by the percent-encoding). -/
theorem C5_finish_is_hmac_and_render_escapes (key fed : String) :
    HmacSha1Sign.finish ⟨key, fed⟩ = hmacSha1 (strBytes key) (strBytes fed) ∧
      (HmacSha1Sign.finish ⟨key, fed⟩).length = 20 ∧
      HmacSha1Signature.render (HmacSha1Sign.finish ⟨key, fed⟩) =
        percentEncode (base64Encode (hmacSha1 (strBytes key) (strBytes fed))) ∧
      ∀ c ∈ (HmacSha1Signature.render (HmacSha1Sign.finish ⟨key, fed⟩)).data,
        c ≠ '+' ∧ c ≠ '/' ∧ c ≠ '=' := by
  refine ⟨rfl, hmacSha1_length _ _, rfl, ?_⟩
  intro c hc
  have hmem : c ∈ (percentEncodeBytes
      (strBytes (base64Encode (hmacSha1 (strBytes key) (strBytes fed))))).data := hc
  have h := percentEncodeBytes_chars _ (strBytes_lt _) c hmem
  refine ⟨?_, ?_, ?_⟩ <;> intro he <;> subst he <;>
    rcases h with h | h <;> exact absurd h (by decide)

/-- C4: the derived signing key is `percentEncode(cs) ++ "&" ++ percentEncode(ts-or-empty)`,
each secret independently percent-encoded first (the encoding step is the `Signer`
layer's, modelled from the spec); and on the source's `signing_key` itself,
`signing_key "cs" none = "cs&"` and `signing_key "cs" (some "ts") = "cs&ts"`. -/
theorem C4_signing_key (cs : String) (ts : Option String) :
    derivedSigningKey cs ts = percentEncode cs ++ "&" ++ percentEncode (ts.getD "") ∧
      signing_key "cs" none = "cs&" ∧ signing_key "cs" (some "ts") = "cs&ts" := by
  refine ⟨?_, rfl, rfl⟩
  cases ts with
  | none =>
      show percentEncode cs ++ "&" ++ "" = percentEncode cs ++ "&" ++ percentEncode ""
      rfl
  | some t => rfl

/-- One feed operation of the `Sign` interface (method, URI, a parameter, or the
delimiter), used to compare runs of a signer on different inputs. -/
inductive FeedOp
  | requestMethodOp (m : String)
  | uriOp (u : String)
  | parameterOp (k v : String)
  | delimitOp
deriving DecidableEq

/-- Modelled from the spec: the PLAINTEXT signer (spec §4.4; `plaintext.rs` is not under
`src/`). It stores the signing key — `percentEncode(consumerSecret) & percentEncode
(tokenSecret-or-empty)` — precomputed at construction. -/
structure PlaintextSign where
  signature : String
deriving DecidableEq

/-- Modelled from the spec: PLAINTEXT construction precomputes the signing key. -/
def PlaintextSign.new (cs : String) (ts : Option String) : PlaintextSign :=
  ⟨derivedSigningKey cs ts⟩

/-- Modelled from the spec: every feed (method, URI, parameter, delimiter) is accepted
but ignored by the PLAINTEXT signer (spec §4.4: "those feeds are accepted but
ignored/no-op for this method"). -/
def PlaintextSign.feed (s : PlaintextSign) (_op : FeedOp) : PlaintextSign := s

/-- Runs a sequence of feed operations on a PLAINTEXT signer. -/
def PlaintextSign.run (s : PlaintextSign) : List FeedOp → PlaintextSign
  | [] => s
  | op :: ops => (s.feed op).run ops

/-- Modelled from the spec: `finish()` returns the precomputed signing-key string. -/
def PlaintextSign.finish (s : PlaintextSign) : String := s.signature

/-- Modelled from the spec: rendering a PLAINTEXT signature is a single
percent-encode pass. -/
def PlaintextSign.render (sig : String) : String := percentEncode sig

lemma PlaintextSign.run_eq (s : PlaintextSign) (ops : List FeedOp) : s.run ops = s := by
  induction ops with
  | nil => rfl
  | cons op ops ih => exact ih

/-- C6: for two runs of a PLAINTEXT signer built from the same secrets, varying the
method/URI/parameter feeds never changes the output: `finish()` returns the
precomputed signing-key string either way, and the rendered signatures agree. -/
theorem C6_plaintext_ignores_feeds (cs : String) (ts : Option String)
    (ops1 ops2 : List FeedOp) :
    ((PlaintextSign.new cs ts).run ops1).finish = ((PlaintextSign.new cs ts).run ops2).finish ∧
      ((PlaintextSign.new cs ts).run ops1).finish = derivedSigningKey cs ts ∧
      PlaintextSign.render (((PlaintextSign.new cs ts).run ops1).finish) =
        PlaintextSign.render (((PlaintextSign.new cs ts).run ops2).finish) := by
  rw [PlaintextSign.run_eq, PlaintextSign.run_eq]
  exact ⟨rfl, rfl, rfl⟩

/-- The `Sign` trait's one required parameter-feeding operation, over an arbitrary
signer state type `σ`: the provided (default) convenience methods below are defined
in terms of it, exactly as in `mod.rs`. -/
structure SignIface (σ : Type) where
  parameter : σ → String → String → σ

/-- Default `callback` (the `provide!` macro, mod.rs lines 55-77 and 162):
forwards to `parameter`. -/
def SignIface.callback (S : SignIface σ) (st : σ) (default_key value : String) : σ :=
  S.parameter st default_key value

/-- Default `consumer_key` (the `provide!` macro): forwards to `parameter`. -/
def SignIface.consumer_key (S : SignIface σ) (st : σ) (default_key value : String) : σ :=
  S.parameter st default_key value

/-- Default `nonce` (the `provide!` macro): forwards to `parameter`. -/
def SignIface.nonce (S : SignIface σ) (st : σ) (default_key value : String) : σ :=
  S.parameter st default_key value

/-- Default `signature_method` (mod.rs lines 172-174): forwards to `parameter`. -/
def SignIface.signature_method (S : SignIface σ) (st : σ)
    (default_key default_value : String) : σ :=
  S.parameter st default_key default_value

/-- Default `timestamp` (mod.rs lines 183-185): forwards to `parameter`; the `u64`
value is fed through its `Display` rendering (decimal digits). -/
def SignIface.timestamp (S : SignIface σ) (st : σ) (default_key : String) (value : Nat) : σ :=
  S.parameter st default_key (toString value)

/-- Default `token` (the `provide!` macro): forwards to `parameter`. -/
def SignIface.token (S : SignIface σ) (st : σ) (default_key value : String) : σ :=
  S.parameter st default_key value

/-- Default `verifier` (the `provide!` macro): forwards to `parameter`. -/
def SignIface.verifier (S : SignIface σ) (st : σ) (default_key value : String) : σ :=
  S.parameter st default_key value

/-- Default `version` (mod.rs lines 195-197): forwards to `parameter`. -/
def SignIface.version (S : SignIface σ) (st : σ) (default_key default_value : String) : σ :=
  S.parameter st default_key default_value

/-- C7: each default mandated-parameter convenience operation, called with its
canonical default key, has exactly the same effect on the signer state as calling
`parameter` with that canonical name and the same value. -/
theorem C7_provided_methods_forward_to_parameter {σ : Type} (S : SignIface σ) (st : σ)
    (v : String) (n : Nat) :
    S.callback st "oauth_callback" v = S.parameter st "oauth_callback" v ∧
      S.consumer_key st "oauth_consumer_key" v = S.parameter st "oauth_consumer_key" v ∧
      S.nonce st "oauth_nonce" v = S.parameter st "oauth_nonce" v ∧
      S.signature_method st "oauth_signature_method" v =
        S.parameter st "oauth_signature_method" v ∧
      S.timestamp st "oauth_timestamp" n = S.parameter st "oauth_timestamp" (toString n) ∧
      S.token st "oauth_token" v = S.parameter st "oauth_token" v ∧
      S.verifier st "oauth_verifier" v = S.parameter st "oauth_verifier" v ∧
      S.version st "oauth_version" v = S.parameter st "oauth_version" v :=
  ⟨rfl, rfl, rfl, rfl, rfl, rfl, rfl, rfl⟩

/-- C8: the only fallible step in the whole `Sign for HmacSha1Sign` implementation is
the MAC key initialization inside `new` (`Hmac::new_varkey(..).unwrap()`), and for
HMAC it accepts every key, so construction succeeds with the `signing_key`-keyed MAC;
once constructed, the fallible bodies of `uri` and `parameter` always return `Ok`
(and `request_method`, `delimit`, `finish` contain no fallible step at all — they are
embedded as total functions). -/
theorem C8_only_construction_can_fail (cs u k v : String) (ts : Option String)
    (st : HmacSha1Sign) :
    HmacSha1Sign.newE cs ts = hmacNewVarkey (signing_key cs ts) ∧
      HmacSha1Sign.newE cs ts = Except.ok (HmacSha1Sign.new cs ts) ∧
      st.uriE u = Except.ok (st.uri u) ∧
      st.parameterE k v = Except.ok (st.parameter k v) :=
  ⟨rfl, rfl, rfl, rfl⟩

/-- C9: `MacWrite::write_str` returns `Ok` for every input string, so the `unwrap()`
calls inside `HmacSha1Sign::uri` and `HmacSha1Sign::parameter` are unreachable error
branches: the fallible bodies always produce `Ok` of the corresponding total
operation, for every input. -/
theorem C9_write_str_always_ok (st : HmacSha1Sign) (s u k v : String) :
    MacWrite.write_str st s = Except.ok (st.input s) ∧
      st.uriE u = Except.ok (st.uri u) ∧
      st.parameterE k v = Except.ok (st.parameter k v) :=
  ⟨rfl, rfl, rfl⟩

/-- The `SignatureMethod` trait's capability record (mod.rs lines 31-53): `name` is
required; `use_nonce` and `use_timestamp` have default implementations returning
`true`, used by any implementation that does not override them. -/
structure SignatureMethodIface where
  name : String
  use_nonce : Bool := true
  use_timestamp : Bool := true
deriving DecidableEq

/-- Embeds `impl SignatureMethod for &SM` (mod.rs lines 200-214): each of the three
methods delegates to the underlying implementation. -/
def SignatureMethodIface.refImpl (sm : SignatureMethodIface) : SignatureMethodIface :=
  ⟨sm.name, sm.use_nonce, sm.use_timestamp⟩

/-- C10: an implementation that does not override `use_nonce`/`use_timestamp` gets
`true` for both (so `oauth_nonce` and `oauth_timestamp` are emitted by default), and
the `&SM` blanket implementation returns exactly the same `name`, `use_nonce` and
`use_timestamp` as `SM` itself. -/
theorem C10_defaults_true_and_ref_delegates (n : String) (sm : SignatureMethodIface) :
    ({ name := n } : SignatureMethodIface).use_nonce = true ∧
      ({ name := n } : SignatureMethodIface).use_timestamp = true ∧
      sm.refImpl.name = sm.name ∧
      sm.refImpl.use_nonce = sm.use_nonce ∧
      sm.refImpl.use_timestamp = sm.use_timestamp :=
  ⟨rfl, rfl, rfl, rfl, rfl⟩

/-! The derive macro's `MethodBody::to_tokens` (src/oauth1-request-derive/src/method_body.rs).
The `OAuthParameter` cursor type lives in the derive crate's `util.rs`, which is not under
`src/`; it is modelled from the spec's Canonical Ordering Table (spec §3, §4.1): the nine
variants in order, each mapped to its literal name, compared with candidate names by
byte-lexicographic order, with `None` a terminal sentinel greater than every name. -/

/-- Byte-lexicographic strict order on byte lists (Rust `str` ordering). -/
def bytesLt : List Nat → List Nat → Bool
  | [], [] => false
  | [], _ :: _ => true
  | _ :: _, [] => false
  | a :: as, b :: bs => decide (a < b) || (a == b && bytesLt as bs)

/-- Byte-lexicographic strict order on strings. -/
def strLtB (a b : String) : Bool := bytesLt (strBytes a) (strBytes b)

/-- Modelled from the spec: the Canonical Ordering Table's cursor
(`OAuthParameter` in the derive crate's `util.rs`, not under `src/`). -/
inductive OAuthParameter
  | Callback
  | ConsumerKey
  | Nonce
  | SignatureMethod
  | Timestamp
  | Token
  | Verifier
  | Version
  | None
deriving DecidableEq

/-- The literal parameter name of each variant; the `None` sentinel has none. -/
def OAuthParameter.asStr : OAuthParameter → Option String
  | .Callback => some "oauth_callback"
  | .ConsumerKey => some "oauth_consumer_key"
  | .Nonce => some "oauth_nonce"
  | .SignatureMethod => some "oauth_signature_method"
  | .Timestamp => some "oauth_timestamp"
  | .Token => some "oauth_token"
  | .Verifier => some "oauth_verifier"
  | .Version => some "oauth_version"
  | .None => none

/-- Modelled from the spec: the "next" transition of the Canonical Ordering Table. -/
def OAuthParameter.next : OAuthParameter → OAuthParameter
  | .Callback => .ConsumerKey
  | .ConsumerKey => .Nonce
  | .Nonce => .SignatureMethod
  | .SignatureMethod => .Timestamp
  | .Timestamp => .Token
  | .Token => .Verifier
  | .Verifier => .Version
  | .Version => .None
  | .None => .None

/-- Position of a variant in the canonical sequence (`None` last). -/
def OAuthParameter.rank : OAuthParameter → Nat
  | .Callback => 0
  | .ConsumerKey => 1
  | .Nonce => 2
  | .SignatureMethod => 3
  | .Timestamp => 4
  | .Token => 5
  | .Verifier => 6
  | .Version => 7
  | .None => 8

/-- Modelled from the spec: `next_param < candidate` — the canonical name compares
byte-lexicographically below the candidate; `None` compares greater than every name. -/
def OAuthParameter.ltStr (p : OAuthParameter) (s : String) : Bool :=
  match p.asStr with
  | some t => strLtB t s
  | none => false

/-- The claim's `canonical name ≤ candidate` relation (`None` greater than every name). -/
def OAuthParameter.leStr (p : OAuthParameter) (s : String) : Bool :=
  match p.asStr with
  | some t => strLtB t s || decide (t = s)
  | none => false

/-- A struct field as seen by `MethodBody::to_tokens`: its (renamed) parameter name and
the `skip`/`encoded` meta flags. The other meta items (`option`, `fmt`, `skip_if`)
only change the shape of the emitted `serialize_parameter` statement (runtime guards
and value adapters), not which serializer calls are emitted or their order. -/
structure DeriveField where
  name : String
  skip : Bool
  encoded : Bool
deriving DecidableEq

/-- One serializer call emitted by the generated method body. -/
inductive SerCall
  | oauthParam (p : OAuthParameter)
  | serializeParameter (encoded : Bool) (key : String)
  | endCall
deriving DecidableEq

/-- Embeds the `while next_param < *name.value()` loop (method_body.rs lines 33-39):
emits the provider/skip call for each mandated parameter below the key and advances
the cursor. Fuel-driven; fuel 9 covers the longest possible chain
Callback → … → Version → None, after which `ltStr` is `false`. -/
def emitSkipsAux : Nat → OAuthParameter → String → List SerCall × OAuthParameter
  | 0, c, _ => ([], c)
  | fuel + 1, c, key =>
    if c.ltStr key then
      let r := emitSkipsAux fuel c.next key
      (SerCall.oauthParam c :: r.1, r.2)
    else ([], c)

/-- The skip loop with its sufficient fuel. -/
def emitSkips (c : OAuthParameter) (key : String) : List SerCall × OAuthParameter :=
  emitSkipsAux 9 c key

/-- Embeds the trailing `while next_param != OAuthParameter::None` loop
(method_body.rs lines 131-137). -/
def emitTailAux : Nat → OAuthParameter → List SerCall
  | 0, _ => []
  | fuel + 1, c =>
    if c = OAuthParameter.None then []
    else SerCall.oauthParam c :: emitTailAux fuel c.next

/-- The tail loop with its sufficient fuel. -/
def emitTail (c : OAuthParameter) : List SerCall := emitTailAux 9 c

/-- The field loop of `MethodBody::to_tokens` (method_body.rs lines 24-141): skipped
fields emit nothing and leave the cursor unchanged; a non-skipped field first runs the
skip loop, then emits its own `serialize_parameter[_encoded]` call; after the fields,
the tail loop and `serializer.end()`. -/
def methodBodyAux : OAuthParameter → List DeriveField → List SerCall
  | c, [] => emitTail c ++ [SerCall.endCall]
  | c, f :: fs =>
    if f.skip then methodBodyAux c fs
    else
      let r := emitSkips c f.name
      r.1 ++ SerCall.serializeParameter f.encoded f.name :: methodBodyAux r.2 fs

/-- Embeds `MethodBody::to_tokens`: the serializer call sequence generated for a field
list, starting from `OAuthParameter::default()` (= `Callback`). -/
def MethodBody.to_tokens (fields : List DeriveField) : List SerCall :=
  methodBodyAux OAuthParameter.Callback fields

/-- The eight mandated (non-sentinel) parameters in canonical order. -/
def mandatedParams : List OAuthParameter :=
  [.Callback, .ConsumerKey, .Nonce, .SignatureMethod, .Timestamp, .Token, .Verifier, .Version]

/-- Every mandated parameter strictly below `key` already has its provider call emitted
(the `emitted` accumulator). -/
def coveredLt (key : String) (emitted : List OAuthParameter) : Bool :=
  mandatedParams.all fun p => !(p.ltStr key) || decide (p ∈ emitted)

/-- Every mandated parameter with name `≤ key` already has its provider call emitted. -/
def coveredLe (key : String) (emitted : List OAuthParameter) : Bool :=
  mandatedParams.all fun p => !(p.leStr key) || decide (p ∈ emitted)

/-- Walks a call sequence checking the merge discipline with the strict-`<` bound:
before each `serialize_parameter` call, every mandated parameter whose canonical name
is strictly below the key must already have had its provider/skip call. -/
def mergeOkLt (emitted : List OAuthParameter) : List SerCall → Bool
  | [] => true
  | SerCall.oauthParam p :: rest => mergeOkLt (p :: emitted) rest
  | SerCall.serializeParameter _ k :: rest => coveredLt k emitted && mergeOkLt emitted rest
  | SerCall.endCall :: rest => mergeOkLt emitted rest

/-- Walks a call sequence checking the claim's discipline with the `≤` bound. -/
def mergeOkLe (emitted : List OAuthParameter) : List SerCall → Bool
  | [] => true
  | SerCall.oauthParam p :: rest => mergeOkLe (p :: emitted) rest
  | SerCall.serializeParameter _ k :: rest => coveredLe k emitted && mergeOkLe emitted rest
  | SerCall.endCall :: rest => mergeOkLe emitted rest

/-- Every mandated parameter receives its provider/skip call somewhere in the sequence. -/
def allMandatedPresent (L : List SerCall) : Bool :=
  mandatedParams.all fun p => decide (SerCall.oauthParam p ∈ L)

/-- The merge discipline with the strict-`<` bound: emits-before condition, all
mandated parameters covered, and the sequence ends with `serializer.end()`. -/
def claimLtHolds (L : List SerCall) : Bool :=
  mergeOkLt [] L && allMandatedPresent L && decide (L.getLast? = some SerCall.endCall)

/-- The claim as stated, with the `≤` bound. -/
def claimLeHolds (L : List SerCall) : Bool :=
  mergeOkLe [] L && allMandatedPresent L && decide (L.getLast? = some SerCall.endCall)

/-- Non-decreasing byte-lexicographic order of a key list. -/
def keysSorted : List String → Bool
  | [] => true
  | [_] => true
  | a :: b :: rest => !(strLtB b a) && keysSorted (b :: rest)

/-- The claim's hypothesis: the non-skipped fields are sorted ascending by
(renamed) key. -/
def sortedKeys (fields : List DeriveField) : Bool :=
  keysSorted ((fields.filter fun f => !f.skip).map DeriveField.name)

lemma bytesLt_trans : ∀ a b c : List Nat,
    bytesLt a b = true → bytesLt b c = true → bytesLt a c = true := by
  intro a
  induction a with
  | nil =>
      intro b c hab hbc
      cases b with
      | nil => simp [bytesLt] at hab
      | cons y bs =>
          cases c with
          | nil => simp [bytesLt] at hbc
          | cons z cs => simp [bytesLt]
  | cons x as ih =>
      intro b c hab hbc
      cases b with
      | nil => simp [bytesLt] at hab
      | cons y bs =>
          cases c with
          | nil => simp [bytesLt] at hbc
          | cons z cs =>
              simp only [bytesLt, Bool.or_eq_true, Bool.and_eq_true, decide_eq_true_eq,
                beq_iff_eq] at hab hbc ⊢
              rcases hab with h1 | ⟨h1, h1'⟩ <;> rcases hbc with h2 | ⟨h2, h2'⟩
              · left; omega
              · left; omega
              · left; omega
              · right; exact ⟨by omega, ih bs cs h1' h2'⟩

lemma bytesLt_total : ∀ a b : List Nat,
    bytesLt a b = true ∨ bytesLt b a = true ∨ a = b := by
  intro a
  induction a with
  | nil =>
      intro b
      cases b with
      | nil => right; right; rfl
      | cons y bs => left; simp [bytesLt]
  | cons x as ih =>
      intro b
      cases b with
      | nil => right; left; simp [bytesLt]
      | cons y bs =>
          rcases Nat.lt_trichotomy x y with h | h | h
          · left; simp [bytesLt, h]
          · subst h
            rcases ih bs with h2 | h2 | h2
            · left; simp [bytesLt, h2]
            · right; left; simp [bytesLt, h2]
            · right; right; rw [h2]
          · right; left; simp [bytesLt, h]

/-- The literal name of a cursor variant (`""` for the sentinel). -/
def OAuthParameter.nameD (p : OAuthParameter) : String := (p.asStr).getD ""

lemma rank_le8 : ∀ p : OAuthParameter, p.rank ≤ 8 := by
  intro p; cases p <;> decide

lemma mandated_rank_le7 : ∀ p ∈ mandatedParams, p.rank ≤ 7 := by
  intro p hp
  cases p <;> first | decide | exact absurd hp (by decide)

lemma mandated_of_ne_none : ∀ p : OAuthParameter, p ≠ OAuthParameter.None →
    p ∈ mandatedParams := by
  intro p h
  cases p <;> first | decide | exact absurd rfl h

lemma rank_inj : ∀ p q : OAuthParameter, p.rank = q.rank → p = q := by
  intro p q
  cases p <;> cases q <;> decide

lemma rank_next : ∀ c : OAuthParameter, c ≠ OAuthParameter.None →
    c.next.rank = c.rank + 1 := by
  intro c h
  cases c <;> first | decide | exact absurd rfl h

lemma ltStr_eq_nameD : ∀ p ∈ mandatedParams, ∀ s : String,
    OAuthParameter.ltStr p s = strLtB p.nameD s := by
  intro p hp s
  cases p <;> first | rfl | exact absurd hp (by decide)

lemma rank_lt_of_name_lt : ∀ p q : OAuthParameter, p ∈ mandatedParams → q ∈ mandatedParams →
    strLtB p.nameD q.nameD = true → p.rank < q.rank := by
  intro p q hp hq h
  clear hq
  cases p <;> cases q <;>
    first
      | (revert h; decide)
      | exact absurd hp (by decide)

lemma emitSkipsAux_spec : ∀ (fuel : Nat) (c : OAuthParameter) (key : String)
    (emitted : List OAuthParameter), 9 ≤ fuel + c.rank →
    (∀ p ∈ mandatedParams, p.rank < c.rank → p ∈ emitted) →
    ∃ emitted' : List OAuthParameter,
      (∀ rest, mergeOkLt emitted ((emitSkipsAux fuel c key).1 ++ rest) =
        mergeOkLt emitted' rest) ∧
      (∀ p ∈ mandatedParams, p.rank < (emitSkipsAux fuel c key).2.rank → p ∈ emitted') ∧
      (emitSkipsAux fuel c key).2.ltStr key = false ∧
      (∀ p, p ∈ emitted' → p ∈ emitted ∨
        SerCall.oauthParam p ∈ (emitSkipsAux fuel c key).1) := by
  intro fuel
  induction fuel with
  | zero =>
      intro c key emitted hfuel _
      have := rank_le8 c
      omega
  | succ fuel ih =>
      intro c key emitted hfuel hinv
      cases hlt : c.ltStr key with
      | false =>
          have hE : emitSkipsAux (fuel + 1) c key = ([], c) := by
            simp [emitSkipsAux, hlt]
          refine ⟨emitted, ?_, ?_, ?_, ?_⟩
          · intro rest; rw [hE]; rfl
          · rw [hE]; exact hinv
          · rw [hE]; exact hlt
          · intro p hp; exact Or.inl hp
      | true =>
          have hcnone : c ≠ OAuthParameter.None := by
            intro h
            subst h
            simp [OAuthParameter.ltStr, OAuthParameter.asStr] at hlt
          have hnext : c.next.rank = c.rank + 1 := rank_next c hcnone
          have hinv' : ∀ p ∈ mandatedParams, p.rank < c.next.rank → p ∈ c :: emitted := by
            intro p hp hr
            rw [hnext] at hr
            rcases Nat.lt_or_ge p.rank c.rank with h | h
            · exact List.mem_cons_of_mem _ (hinv p hp h)
            · have heq : p.rank = c.rank := by omega
              cases rank_inj p c heq
              exact List.mem_cons_self _ _
          obtain ⟨emitted', hthread, hinv2, hstop, hsub⟩ :=
            ih c.next key (c :: emitted) (by omega) hinv'
          have hE : emitSkipsAux (fuel + 1) c key =
              (SerCall.oauthParam c :: (emitSkipsAux fuel c.next key).1,
                (emitSkipsAux fuel c.next key).2) := by
            simp [emitSkipsAux, hlt]
          refine ⟨emitted', ?_, ?_, ?_, ?_⟩
          · intro rest
            rw [hE]
            exact hthread rest
          · rw [hE]; exact hinv2
          · rw [hE]; exact hstop
          · intro p hp
            rcases hsub p hp with h | h
            · rcases List.mem_cons.mp h with h | h
              · right; rw [hE]; cases h; exact List.mem_cons_self _ _
              · left; exact h
            · right; rw [hE]; exact List.mem_cons_of_mem _ h

lemma mergeOkLt_tail : ∀ (fuel : Nat) (c : OAuthParameter) (emitted : List OAuthParameter),
    mergeOkLt emitted (emitTailAux fuel c ++ [SerCall.endCall]) = true := by
  intro fuel
  induction fuel with
  | zero => intro c emitted; rfl
  | succ fuel ih =>
      intro c emitted
      by_cases hc : c = OAuthParameter.None
      · simp [emitTailAux, hc, mergeOkLt]
      · simp only [emitTailAux, if_neg hc, List.cons_append]
        exact ih c.next (c :: emitted)

lemma emitTailAux_mem : ∀ (fuel : Nat) (c : OAuthParameter) (p : OAuthParameter),
    p ∈ mandatedParams → c.rank ≤ p.rank → 9 ≤ fuel + c.rank →
    SerCall.oauthParam p ∈ emitTailAux fuel c := by
  intro fuel
  induction fuel with
  | zero =>
      intro c p hp hle hfuel
      have := mandated_rank_le7 p hp
      omega
  | succ fuel ih =>
      intro c p hp hle hfuel
      by_cases hc : c = OAuthParameter.None
      · subst hc
        have := mandated_rank_le7 p hp
        have hr : OAuthParameter.None.rank = 8 := rfl
        omega
      · rw [emitTailAux, if_neg hc]
        by_cases hpc : p = c
        · cases hpc; exact List.mem_cons_self _ _
        · have hne : p.rank ≠ c.rank := fun h => hpc (rank_inj p c h)
          have hnext : c.next.rank = c.rank + 1 := rank_next c hc
          exact List.mem_cons_of_mem _ (ih c.next p hp (by omega) (by omega))

lemma methodBodyAux_spec : ∀ (fields : List DeriveField) (c : OAuthParameter)
    (emitted : List OAuthParameter),
    (∀ p ∈ mandatedParams, p.rank < c.rank → p ∈ emitted) →
    mergeOkLt emitted (methodBodyAux c fields) = true ∧
      (∀ p ∈ mandatedParams, SerCall.oauthParam p ∈ methodBodyAux c fields ∨ p ∈ emitted) ∧
      (methodBodyAux c fields).getLast? = some SerCall.endCall := by
  intro fields
  induction fields with
  | nil =>
      intro c emitted hinv
      refine ⟨mergeOkLt_tail 9 c emitted, ?_, List.getLast?_concat _⟩
      intro p hp
      rcases Nat.lt_or_ge p.rank c.rank with h | h
      · exact Or.inr (hinv p hp h)
      · exact Or.inl (List.mem_append_left _ (emitTailAux_mem 9 c p hp h (by omega)))
  | cons f fs ih =>
      intro c emitted hinv
      cases hskip : f.skip with
      | true =>
          have hB : methodBodyAux c (f :: fs) = methodBodyAux c fs := by
            simp [methodBodyAux, hskip]
          rw [hB]
          exact ih c emitted hinv
      | false =>
          have hB : methodBodyAux c (f :: fs) =
              (emitSkipsAux 9 c f.name).1 ++ SerCall.serializeParameter f.encoded f.name ::
                methodBodyAux (emitSkipsAux 9 c f.name).2 fs := by
            simp [methodBodyAux, hskip, emitSkips]
          obtain ⟨emitted', hthread, hinv2, hstop, hsub⟩ :=
            emitSkipsAux_spec 9 c f.name emitted (by have := rank_le8 c; omega) hinv
          obtain ⟨hmok, hmem, hlast⟩ := ih (emitSkipsAux 9 c f.name).2 emitted' hinv2
          have hcov : coveredLt f.name emitted' = true := by
            rw [coveredLt, List.all_eq_true]
            intro p hp
            cases hplt : OAuthParameter.ltStr p f.name with
            | false => simp
            | true =>
                rw [Bool.or_eq_true]
                right
                rw [decide_eq_true_eq]
                apply hinv2 p hp
                by_cases hA2 : (emitSkipsAux 9 c f.name).2 = OAuthParameter.None
                · rw [hA2]
                  have := mandated_rank_le7 p hp
                  have hr : OAuthParameter.None.rank = 8 := rfl
                  omega
                · have hA2m : (emitSkipsAux 9 c f.name).2 ∈ mandatedParams :=
                    mandated_of_ne_none _ hA2
                  apply rank_lt_of_name_lt p _ hp hA2m
                  have h1 : strLtB p.nameD f.name = true := by
                    rw [← ltStr_eq_nameD p hp]; exact hplt
                  have h2 : strLtB (emitSkipsAux 9 c f.name).2.nameD f.name = false := by
                    rw [← ltStr_eq_nameD _ hA2m]; exact hstop
                  rw [strLtB] at h1 h2 ⊢
                  rcases bytesLt_total (strBytes (emitSkipsAux 9 c f.name).2.nameD)
                      (strBytes f.name) with ht | ht | ht
                  · rw [ht] at h2; exact absurd h2 (by simp)
                  · exact bytesLt_trans _ _ _ h1 ht
                  · rw [ht]; exact h1
          refine ⟨?_, ?_, ?_⟩
          · rw [hB, hthread]
            simp only [mergeOkLt]
            rw [Bool.and_eq_true]
            exact ⟨hcov, hmok⟩
          · intro p hp
            rcases hmem p hp with h | h
            · left
              rw [hB]
              exact List.mem_append_right _ (List.mem_cons_of_mem _ h)
            · rcases hsub p h with h2 | h2
              · exact Or.inr h2
              · left
                rw [hB]
                exact List.mem_append_left _ h2
          · rw [hB]
            have h1 : (SerCall.serializeParameter f.encoded f.name ::
                methodBodyAux (emitSkipsAux 9 c f.name).2 fs).getLast? =
                some SerCall.endCall := by
              rw [show SerCall.serializeParameter f.encoded f.name ::
                  methodBodyAux (emitSkipsAux 9 c f.name).2 fs =
                  [SerCall.serializeParameter f.encoded f.name] ++
                    methodBodyAux (emitSkipsAux 9 c f.name).2 fs from rfl]
              rw [List.getLast?_append, hlast]
              rfl
            rw [List.getLast?_append, h1]
            rfl

/-- C1 counterexample: with the single non-skipped field renamed `"oauth_callback"`
(a sorted sequence), the generated body serializes the user parameter first and emits
the `oauth_callback` provider/skip call only afterwards, because the source loop uses
a strict `<` comparison; so a mandated parameter whose canonical name is *equal* to
the user key is not emitted before it, and the claim's `≤` discipline fails. -/
theorem C1_counterexample :
    sortedKeys [⟨"oauth_callback", false, false⟩] = true ∧
      claimLeHolds (MethodBody.to_tokens [⟨"oauth_callback", false, false⟩]) = false := by
  constructor
  · decide
  · decide

/-- C1 (amended): for every field sequence sorted ascending by renamed key, the call
sequence generated by `MethodBody::to_tokens` follows the merge discipline with a
strict bound: before each non-skipped user parameter, the provider/skip call of every
mandated parameter whose canonical name is lexicographically strictly less than that
parameter's key has been emitted; every mandated parameter's provider/skip call is
emitted somewhere (those not below any user key come after the last user parameter);
and the sequence ends with `serializer.end()`. -/
theorem C1_merge_discipline_strict (fields : List DeriveField)
    (_hs : sortedKeys fields = true) :
    claimLtHolds (MethodBody.to_tokens fields) = true := by
  obtain ⟨hmok, hmem, hlast⟩ := methodBodyAux_spec fields OAuthParameter.Callback []
    (by intro p hp h; exact absurd h (by simp [OAuthParameter.rank]))
  rw [claimLtHolds, Bool.and_eq_true, Bool.and_eq_true]
  refine ⟨⟨hmok, ?_⟩, ?_⟩
  · rw [allMandatedPresent, List.all_eq_true]
    intro p hp
    rw [decide_eq_true_eq]
    rcases hmem p hp with h | h
    · exact h
    · exact absurd h (List.not_mem_nil p)
  · rw [decide_eq_true_eq]
    exact hlast

/-- C1 witness: a concrete sorted field sequence (`"a"` then `"status"`, the second
marked `encoded`) satisfies the hypothesis and the amended discipline. -/
theorem C1_merge_discipline_witness :
    sortedKeys [⟨"a", false, false⟩, ⟨"status", false, true⟩] = true ∧
      claimLtHolds (MethodBody.to_tokens
        [⟨"a", false, false⟩, ⟨"status", false, true⟩]) = true :=
  ⟨by decide, C1_merge_discipline_strict _ (by decide)⟩

end OAuth1
